import Mathlib

/-!
Verification development for the hydra-installer core (src/src-tauri/src/lib.rs).

The Rust code is shallowly embedded: strings are `String` / `List Char`,
`u64` counters are `Nat`, `f64` arithmetic is modelled by exact rational
arithmetic (`ℚ`), fallible operations are `Except String`, and the ambient
effects of each Tauri command (registry contents, HTTP stream chunks, process
exit statuses, filesystem outcomes) are passed in explicitly as environment
records.  Event emission through `window.emit` is modelled as infallible.
All definitions follow the `#[cfg(target_os = "windows")]` branches, which is
the platform the commands support.
-/

namespace HydraInstaller

/-- A Windows path separator, as recognised by `std::path` (`\` or `/`). -/
def isSlash (c : Char) : Bool := c = '\\' || c = '/'

/-- Does the string begin with a disk prefix such as `C:`?  Models the
`std::path::Prefix::Disk` case of Windows path parsing. -/
def hasDrive : List Char → Bool
  | a :: b :: _ => a.isAlpha && b = ':'
  | _ => false

/-- The chars after the disk prefix, if any. -/
def afterDrive (cs : List Char) : List Char :=
  if hasDrive cs then cs.drop 2 else cs

/-- The part of `winParent` working on the path after the disk prefix:
`none` when nothing but root separators remains, otherwise the prefix plus
the part before the final normal component (keeping a root separator). -/
def winParentRest (pre rest : List Char) : Option (List Char) :=
  if rest.all isSlash then none
  else
    let rev := (rest.reverse.dropWhile isSlash).dropWhile (fun c => !isSlash c)
    if rev.isEmpty then
      if pre.isEmpty then some [] else some pre
    else
      let kept := rev.dropWhile isSlash
      if kept.isEmpty then some (pre ++ [rest.headD '\\']) else some (pre ++ kept.reverse)

/-- Models `std::path::Path::parent` for Windows paths built from a disk
prefix and/or single separators (the shapes produced by the code under
verification): the path without its final normal component, `none` when the
path is empty or consists only of a prefix and root. -/
def winParent (cs : List Char) : Option (List Char) :=
  winParentRest (if hasDrive cs then cs.take 2 else []) (afterDrive cs)

/-- Models `std::path::Path::join` (i.e. `PathBuf::push`) of a relative
component such as `Hydra.exe` onto a base path: insert the primary separator
`\` unless the base is empty or already ends in a separator. -/
def winJoin (base comp : List Char) : List Char :=
  match base.reverse with
  | [] => comp
  | c :: _ => if isSlash c then base ++ comp else base ++ ('\\' :: comp)

/-- Models Rust `str::trim` (the inputs of interest only carry ASCII
whitespace, which `Char.isWhitespace` covers). -/
def rustTrim (cs : List Char) : List Char :=
  ((cs.dropWhile Char.isWhitespace).reverse.dropWhile Char.isWhitespace).reverse

/-- Models `str::trim_matches('"')`: strip every leading and trailing
quote character. -/
def trimQuotes (cs : List Char) : List Char :=
  ((cs.dropWhile (fun c => c = '"')).reverse.dropWhile (fun c => c = '"')).reverse

/-- Models `str::split_whitespace().next()`: the first maximal run of
non-whitespace characters, or `none` when there is none. -/
def firstWsToken (cs : List Char) : Option (List Char) :=
  let t := cs.dropWhile Char.isWhitespace
  if t.isEmpty then none else some (t.takeWhile (fun c => !c.isWhitespace))

/-- Models Rust `str::split(sep)` on a list of characters: the list of
(possibly empty) segments between occurrences of `sep`; always non-empty. -/
def rustSplit (sep : Char) : List Char → List (List Char)
  | [] => [[]]
  | c :: cs =>
    if c = sep then [] :: rustSplit sep cs
    else
      match rustSplit sep cs with
      | [] => [[c]]
      | h :: t => (c :: h) :: t

/-- Models `str::split(sep)` followed by `.next().unwrap_or(cs)`: the first
segment (always defined, since a split is never empty). -/
def rustSplitFirst (sep : Char) (cs : List Char) : List Char :=
  match rustSplit sep cs with
  | [] => cs
  | h :: _ => h

/-- One candidate entry of the uninstall metadata store (a registry subkey);
a `none` field models a value whose `get_value` read fails. -/
structure InstallationRecord where
  displayName : Option String
  publisher : Option String
  installLocation : Option String
  uninstallString : Option String
  displayIcon : Option String

/-- Models lines 99–104 of lib.rs: the executable path extracted from an
`UninstallString` value — trim, strip edge quotes, first whitespace token,
falling back to the original string when no token exists. -/
def uninstallExePath (s : String) : List Char :=
  match firstWsToken (trimQuotes (rustTrim s.data)) with
  | some tok => tok
  | none => s.data

/-- Models lines 113–119 of lib.rs: the `DisplayIcon` fallback — everything
before the first comma, then that path's parent directory. -/
def iconFallback (e : InstallationRecord) : Option String :=
  match e.displayIcon with
  | some d =>
    let icon := rustSplitFirst ',' d.data
    match winParent icon with
    | some p => some (String.mk p)
    | none => none
  | none => none

/-- Models lines 96–110 of lib.rs: the `UninstallString` fallback — parent of
the extracted executable path joined with `Hydra.exe`; falls through to the
`DisplayIcon` fallback when the entry has no uninstall string or the parent
does not exist. -/
def uninstallFallback (e : InstallationRecord) : Option String :=
  match e.uninstallString with
  | some s =>
    match winParent (uninstallExePath s) with
    | some p => some (String.mk (winJoin p ("Hydra.exe".data)))
    | none => iconFallback e
  | none => iconFallback e

/-- Models lines 87–120 of lib.rs: what one registry entry contributes — the
fallback chain runs only for an entry whose display name is `Hydra` and whose
publisher is `Los Broxas`, trying `InstallLocation` (when non-empty), then
the uninstall string, then the display icon. -/
def entryResult (e : InstallationRecord) : Option String :=
  if e.displayName = some "Hydra" ∧ e.publisher = some "Los Broxas" then
    match e.installLocation with
    | some loc => if loc = "" then uninstallFallback e else some loc
    | none => uninstallFallback e
  else none

/-- Models `get_hydra_installation_path` (lines 43–125): scan the registry
stores in priority order and return the first entry's result. -/
def get_hydra_installation_path (stores : List (List InstallationRecord)) : Option String :=
  stores.flatten.findSome? entryResult

/-- Modelled from the spec: the uninstall-command parse as section 4.2 words
it — "if it begins with a quote character, take the substring up to the
matching closing quote as the executable path; otherwise take the first
whitespace-delimited token". -/
def specUninstallExeL : List Char → List Char
  | [] => []
  | c :: rest =>
    if c = '"' then rest.takeWhile (fun x => x ≠ '"')
    else ((c :: rest).dropWhile Char.isWhitespace).takeWhile (fun x => !x.isWhitespace)

/-- Modelled from the spec: the quote-aware parse applied to a string. -/
def specUninstallExe (s : String) : List Char :=
  specUninstallExeL s.data

/-- Modelled from the spec: "Take that path's parent directory and append the
expected executable filename; return the result." -/
def specUninstallResult (s : String) : Option String :=
  (winParent (specUninstallExe s)).map (fun p => String.mk (winJoin p ("Hydra.exe".data)))

/-- The `DownloadProgress` struct (lines 4–11); the `f64` fields `percentage`,
`speed` and `eta` are modelled by exact rationals. -/
structure DownloadProgress where
  downloaded : Nat
  total : Option Nat
  percentage : ℚ
  speed : ℚ
  eta : Option ℚ

/-- Models lines 268–297 of `start_download`: the progress snapshot computed
from the byte counter, the optional content length, and the elapsed seconds
since the download started. -/
def progressSnapshot (downloaded : Nat) (total : Option Nat) (totalElapsed : ℚ) : DownloadProgress :=
  let speed : ℚ := if 0 < totalElapsed then (downloaded : ℚ) / totalElapsed else 0
  { downloaded := downloaded
    total := total
    percentage :=
      match total with
      | some t => (downloaded : ℚ) / (t : ℚ) * 100
      | none => -1
    speed := speed
    eta :=
      match total with
      | some t =>
        if 0 < speed ∧ downloaded < t then some (((t - downloaded : Nat) : ℚ) / speed) else none
      | none => none }

/-- The events `start_download` pushes to the window, one constructor per
channel name. -/
inductive DLEvent where
  | downloadProgress (p : DownloadProgress)
  | downloadError (msg : String)
  | downloadComplete (path : String) (total : Option Nat)
  | installComplete
  | installError (msg : String)

/-- One item of the HTTP byte stream together with the outcome of writing it:
`chunk` is `Ok` with the chunk length or the transport error, `writeRes` is
the result of `file.write_all`, and `arrival` is the instant (seconds since
the download started) at which the chunk is processed. -/
structure StreamItem where
  chunk : Except String Nat
  writeRes : Except String Unit
  arrival : ℚ

/-- Outcome of the chunk loop: emitted events, loop result, bytes written. -/
structure LoopOut where
  evts : List DLEvent
  res : Except String Unit
  bytes : Nat

/-- Models the `while let Some(item) = stream.next().await` loop of
`start_download` (lines 246–305): per chunk, abort on a transport or write
error (emitting one `download-error` event), otherwise count the bytes and
emit a throttled progress snapshot when at least 0.1 seconds passed since the
last one. -/
def runLoop (total : Option Nat) : List StreamItem → Nat → ℚ → LoopOut
  | [], downloaded, _ => { evts := [], res := .ok (), bytes := downloaded }
  | it :: rest, downloaded, lastUpdate =>
    match it.chunk with
    | .error e =>
      { evts := [.downloadError ("Download error: " ++ e)]
        res := .error ("Download error: " ++ e)
        bytes := downloaded }
    | .ok len =>
      match it.writeRes with
      | .error e =>
        { evts := [.downloadError ("Write error: " ++ e)]
          res := .error ("Write error: " ++ e)
          bytes := downloaded }
      | .ok _ =>
        let downloaded' := downloaded + len
        if (1 : ℚ) / 10 ≤ max 0 (it.arrival - lastUpdate) then
          let out := runLoop total rest downloaded' it.arrival
          { out with
              evts := .downloadProgress (progressSnapshot downloaded' total (max 0 it.arrival)) :: out.evts }
        else
          runLoop total rest downloaded' lastUpdate

/-- Ambient effects of one `start_download` invocation: the request outcome,
the declared content length, the stream items, the file-creation outcome, and
the installer spawn / wait / cleanup outcomes. -/
structure DownloadEnv where
  url : String
  tempDir : String
  getRes : Except String Unit
  contentLength : Option Nat
  items : List StreamItem
  createRes : Except String Unit
  spawnRes : Except String Unit
  waitRes : Except String Int
  removeOk : Bool

/-- Observable outcome of `start_download`: the computed destination path,
the events pushed to the window in order, the command's return value, and the
destination-file state (created, bytes successfully written, deleted by the
post-install cleanup), plus whether the installer phase was reached. -/
structure RunResult where
  destPath : String
  events : List DLEvent
  result : Except String Unit
  fileCreated : Bool
  fileBytes : Nat
  fileDeleted : Bool
  installerRan : Bool

/-- Models lines 223–226: `temp_dir.join(url.split('/').last().unwrap_or("downloaded_file.exe"))`. -/
def destFilePath (env : DownloadEnv) : String :=
  String.mk (winJoin env.tempDir.data ((rustSplit '/' env.url.data).getLastD ("downloaded_file.exe".data)))

/-- Models lines 321–367: spawn the downloaded installer, wait for it, treat
exit code 0 as success (best-effort deletion of the installer file, then the
`install-complete` event), any other outcome as an error.  Returns the events
of this phase, the phase result, and whether the installer file was deleted. -/
def installPhase (env : DownloadEnv) : List DLEvent × Except String Unit × Bool :=
  match env.spawnRes with
  | .error e =>
    ([.installError ("Failed to start installer: " ++ e)],
     .error ("Failed to start installer: " ++ e), false)
  | .ok _ =>
    match env.waitRes with
    | .error e => ([], .error ("Failed to wait for installer: " ++ e), false)
    | .ok code =>
      if code = 0 then ([.installComplete], .ok (), env.removeOk)
      else
        ([.installError ("Installer exited with code: " ++ toString code)],
         .error ("Installer exited with code: " ++ toString code), false)

/-- Models lines 246–375 of `start_download`: what happens from the chunk
loop onwards, given the loop's outcome. -/
def afterLoop (env : DownloadEnv) (out : LoopOut) : RunResult :=
  match out.res with
  | .error e =>
    { destPath := destFilePath env, events := out.evts, result := .error e
      fileCreated := true, fileBytes := out.bytes, fileDeleted := false, installerRan := false }
  | .ok _ =>
    let ip := installPhase env
    { destPath := destFilePath env
      events := out.evts ++ [.downloadComplete (destFilePath env) env.contentLength] ++ ip.1
      result := ip.2.1
      fileCreated := true, fileBytes := out.bytes
      fileDeleted := ip.2.2, installerRan := true }

/-- Models the `start_download` command (lines 221–375) end to end. -/
def start_download (env : DownloadEnv) : RunResult :=
  match env.getRes with
  | .error e =>
    { destPath := destFilePath env, events := []
      result := .error ("Failed to start download: " ++ e)
      fileCreated := false, fileBytes := 0, fileDeleted := false, installerRan := false }
  | .ok _ =>
    match env.createRes with
    | .error e =>
      { destPath := destFilePath env, events := []
        result := .error ("Failed to create file: " ++ e)
        fileCreated := false, fileBytes := 0, fileDeleted := false, installerRan := false }
    | .ok _ => afterLoop env (runLoop env.contentLength env.items 0 0)

/-- Total size of the chunks a list of stream items delivered successfully. -/
def goodBytes (items : List StreamItem) : Nat :=
  (items.map fun x =>
    match x.chunk with
    | .ok n => n
    | .error _ => 0).sum

/-- Is this an emission on the `download-error` channel? -/
def isErrEv : DLEvent → Bool
  | .downloadError _ => true
  | _ => false

/-- Does `needle` occur at the head of `hay`? -/
def leadsWith : List Char → List Char → Bool
  | [], _ => true
  | _ :: _, [] => false
  | a :: as, b :: bs => a = b && leadsWith as bs

/-- Models Rust `str::contains(substring)`. -/
def strContainsSub (needle : List Char) : List Char → Bool
  | [] => leadsWith needle []
  | c :: rest => leadsWith needle (c :: rest) || strContainsSub needle rest

/-- The observable output of the spawned `taskkill` command: its exit code
and its captured standard-error text (`status.success()` is exit code 0). -/
structure TaskkillOutput where
  code : Int
  stderr : String

/-- Models `kill_hydra_process` (lines 134–165): success when `taskkill`
exits 0 or 128 or its stderr mentions "not found" / "not running"; any other
outcome is an error. -/
def kill_hydra_process (output : Except String TaskkillOutput) : Except String Unit :=
  match output with
  | .error e => .error ("Failed to execute taskkill: " ++ e)
  | .ok r =>
    if r.code = 0 ∨ r.code = 128 then .ok ()
    else if strContainsSub ("not found".data) r.stderr.data
            || strContainsSub ("not running".data) r.stderr.data then .ok ()
    else .error ("Failed to kill Hydra process: " ++ r.stderr)

/-- The externally visible side-effecting steps of `delete_previous_installation`. -/
inductive DelAction where
  | killAttempt
  | removeAttempt
deriving DecidableEq

/-- Ambient effects of one `delete_previous_installation` invocation. -/
structure DeleteEnv where
  killOutput : Except String TaskkillOutput
  homeDir : Option String
  hydraDirExists : Bool
  removeRes : Except String Unit

/-- Models `delete_previous_installation` (lines 168–186): kill the process
first (propagating its error), then delete the per-user data directory when
it exists.  Returns the ordered list of attempted side effects and the
command's result. -/
def delete_previous_installation (env : DeleteEnv) : List DelAction × Except String Unit :=
  match kill_hydra_process env.killOutput with
  | .error e => ([.killAttempt], .error e)
  | .ok _ =>
    match env.homeDir with
    | none => ([.killAttempt], .error "Failed to get home directory")
    | some _ =>
      if env.hydraDirExists then
        match env.removeRes with
        | .error e => ([.killAttempt, .removeAttempt], .error ("Failed to delete previous installation: " ++ e))
        | .ok _ => ([.killAttempt, .removeAttempt], .ok ())
      else ([.killAttempt], .ok ())

/-- Does the list end in a non-separator character (true also when empty)? -/
def lastCharNotSlash (l : List Char) : Bool :=
  match l.reverse with
  | [] => true
  | c :: _ => !isSlash c

/-- Does the list end in a non-whitespace character (true also when empty)? -/
def lastCharNotWs (l : List Char) : Bool :=
  match l.reverse with
  | [] => true
  | c :: _ => !c.isWhitespace

/-- A metadata entry whose only populated fallback field is the uninstall
command string. -/
def uninstallOnlyEntry (s : String) : InstallationRecord :=
  { displayName := some "Hydra", publisher := some "Los Broxas",
    installLocation := none, uninstallString := some s, displayIcon := none }

/-- A sample environment: a download whose stream fails mid-transfer after
one good chunk. -/
def sampleEnvC7 : DownloadEnv :=
  { url := "https://example.com/Hydra-Setup.exe", tempDir := "C:\\Temp"
    getRes := .ok (), contentLength := some 100
    items := [{ chunk := .ok 5, writeRes := .ok (), arrival := 1 },
              { chunk := .error "connection reset", writeRes := .ok (), arrival := 2 }]
    createRes := .ok (), spawnRes := .ok (), waitRes := .ok 0, removeOk := true }

/-- A sample environment: a fully successful download and install whose
post-install cleanup of the installer file fails. -/
def sampleEnvC8 : DownloadEnv :=
  { url := "https://example.com/Hydra-Setup.exe", tempDir := "C:\\Temp"
    getRes := .ok (), contentLength := some 5
    items := [{ chunk := .ok 5, writeRes := .ok (), arrival := 1 }]
    createRes := .ok (), spawnRes := .ok (), waitRes := .ok 0, removeOk := false }

/-- A sample environment: a deletion run where the kill succeeds and the
previous installation directory exists. -/
def sampleDelEnv : DeleteEnv :=
  { killOutput := .ok { code := 0, stderr := "" }
    homeDir := some "C:\\Users\\user", hydraDirExists := true, removeRes := .ok () }

/-! ## Library lemmas about the string helpers -/

theorem rustSplit_ne_nil (sep : Char) (cs : List Char) : rustSplit sep cs ≠ [] := by
  induction cs with
  | nil => simp [rustSplit]
  | cons c cs ih =>
    simp only [rustSplit]
    split
    · simp
    · split
      · simp
      · simp

theorem rustSplit_head? (sep : Char) (cs : List Char) :
    (rustSplit sep cs).head? = some (cs.takeWhile (fun c => c ≠ sep)) := by
  induction cs with
  | nil => simp [rustSplit]
  | cons c cs ih =>
    by_cases h : c = sep
    · simp [rustSplit, h, List.takeWhile_cons]
    · rcases hr : rustSplit sep cs with _ | ⟨h0, t0⟩
      · exact absurd hr (rustSplit_ne_nil sep cs)
      · rw [hr] at ih
        simp only [List.head?, Option.some_inj] at ih
        simp only [rustSplit, if_neg h, hr, List.head?, List.takeWhile_cons, Option.some_inj]
        rw [if_pos (show decide (c ≠ sep) = true by simp [h]), ih]

theorem rustSplitFirst_eq (sep : Char) (cs : List Char) :
    rustSplitFirst sep cs = cs.takeWhile (fun c => c ≠ sep) := by
  unfold rustSplitFirst
  rcases hr : rustSplit sep cs with _ | ⟨h0, t0⟩
  · exact absurd hr (rustSplit_ne_nil sep cs)
  · have := rustSplit_head? sep cs
    rw [hr] at this
    simpa using this

theorem rustSplit_of_not_mem (sep : Char) (cs : List Char) (h : sep ∉ cs) :
    rustSplit sep cs = [cs] := by
  induction cs with
  | nil => simp [rustSplit]
  | cons c cs ih =>
    have hc : ¬ c = sep := fun hcc => h (hcc ▸ List.mem_cons_self c cs)
    have hcs : sep ∉ cs := fun hm => h (List.mem_cons_of_mem c hm)
    simp [rustSplit, hc, ih hcs]

theorem rustSplit_eq_single (sep : Char) (cs h0 : List Char)
    (h : rustSplit sep cs = [h0]) : h0 = cs ∧ sep ∉ cs := by
  induction cs generalizing h0 with
  | nil =>
    simp [rustSplit] at h
    subst h
    simp
  | cons c cs ih =>
    by_cases hc : c = sep
    · rw [rustSplit, if_pos hc] at h
      rcases hr : rustSplit sep cs with _ | ⟨a, b⟩
      · exact absurd hr (rustSplit_ne_nil sep cs)
      · rw [hr] at h
        simp at h
    · rw [rustSplit, if_neg hc] at h
      rcases hr : rustSplit sep cs with _ | ⟨a, b⟩
      · exact absurd hr (rustSplit_ne_nil sep cs)
      · rw [hr] at h
        simp only [List.cons.injEq] at h
        rcases h with ⟨hh, hb⟩
        subst hb
        rcases ih a hr with ⟨ha, hmem⟩
        subst ha
        refine ⟨hh.symm, ?_⟩
        intro hm
        rcases List.mem_cons.mp hm with h1 | h2
        · exact hc h1.symm
        · exact hmem h2

theorem takeWhile_append_singleton {α : Type} (p : α → Bool) (l : List α) (a : α)
    (h : p a = false) : (l ++ [a]).takeWhile p = l.takeWhile p := by
  induction l with
  | nil => simp [List.takeWhile_cons, h]
  | cons b l ih =>
    simp only [List.cons_append, List.takeWhile_cons]
    split
    · rw [ih]
    · rfl

theorem takeWhile_length_eq {α : Type} (p : α → Bool) (l : List α)
    (h : (l.takeWhile p).length = l.length) : l.takeWhile p = l :=
  ( List.takeWhile_prefix p).eq_of_length h

theorem rustSplit_getLastD (sep : Char) (cs : List Char) (dflt : List Char) :
    (rustSplit sep cs).getLastD dflt = (cs.reverse.takeWhile (fun c => c ≠ sep)).reverse := by
  induction cs generalizing dflt with
  | nil => simp [rustSplit]
  | cons c cs ih =>
    rcases hr : rustSplit sep cs with _ | ⟨h0, t0⟩
    · exact absurd hr (rustSplit_ne_nil sep cs)
    by_cases hc : c = sep
    · subst hc
      rw [rustSplit, if_pos rfl, hr]
      have lhs : (([] : List Char) :: h0 :: t0).getLastD dflt = (h0 :: t0).getLastD dflt := by
        simp [List.getLastD_cons]
      rw [lhs, ← hr, ih dflt]
      rw [show (c :: cs).reverse = cs.reverse ++ [c] from by simp]
      rw [takeWhile_append_singleton _ _ _ (by simp)]
    · rw [rustSplit, if_neg hc, hr]
      cases t0 with
      | nil =>
        rcases rustSplit_eq_single sep cs h0 hr with ⟨hh, hmem⟩
        have htw : ((c :: cs).reverse).takeWhile (fun x => x ≠ sep) = (c :: cs).reverse := by
          rw [List.takeWhile_eq_self_iff]
          intro x hx
          rw [List.mem_reverse] at hx
          simp only [decide_eq_true_iff]
          intro hxe
          subst hxe
          rcases List.mem_cons.mp hx with h1 | h2
          · exact hc h1.symm
          · exact hmem h2
        rw [htw, List.reverse_reverse, hh]
        simp [List.getLastD_cons]
      | cons t1 t2 =>
        have hmem : sep ∈ cs := by
          by_contra hnm
          rw [rustSplit_of_not_mem sep cs hnm] at hr
          simp at hr
        have lhs : ((c :: h0) :: t1 :: t2).getLastD dflt = (h0 :: t1 :: t2).getLastD dflt := by
          simp [List.getLastD_cons]
        rw [lhs, ← hr, ih dflt]
        rw [show (c :: cs).reverse = cs.reverse ++ [c] from by simp]
        rw [List.takeWhile_append]
        have hne : ¬ ((cs.reverse.takeWhile (fun x => decide (x ≠ sep))).length = cs.reverse.length) := by
          intro hlen
          have heq := takeWhile_length_eq _ _ hlen
          rw [List.takeWhile_eq_self_iff] at heq
          have hsep := heq sep (List.mem_reverse.mpr hmem)
          simp at hsep
        rw [if_neg hne]

theorem locate_singleton (e : InstallationRecord) :
    get_hydra_installation_path [[e]] = entryResult e := by
  show List.findSome? entryResult [e] = entryResult e
  rw [List.findSome?_cons]
  cases entryResult e <;> simp

/-! ## Claim theorems -/

/-- C4: `get_hydra_installation_path` run against a metadata store whose only
matching entry carries solely the uninstall command string
`"C:\Apps\X\Uninstall.exe" /S` (quoted path plus `/S` argument, no
`InstallLocation` and no `DisplayIcon`) returns the path
`C:\Apps\X\Hydra.exe`. -/
theorem claim_C4 :
    get_hydra_installation_path
      [[{ displayName := some "Hydra", publisher := some "Los Broxas",
          installLocation := none,
          uninstallString := some "\"C:\\Apps\\X\\Uninstall.exe\" /S",
          displayIcon := none }]] = some "C:\\Apps\\X\\Hydra.exe" := by
  decide

/-- C5: for every matched metadata entry whose only populated fallback field
is a display-icon string, the locator splits off everything before the first
comma and returns that path's parent directory; in particular an entry with
only `DisplayIcon = "C:\Apps\X\icon.ico,0"` yields `C:\Apps\X`. -/
theorem claim_C5 :
    (∀ d : String,
      get_hydra_installation_path
        [[{ displayName := some "Hydra", publisher := some "Los Broxas",
            installLocation := none, uninstallString := none,
            displayIcon := some d }]]
        = (winParent (d.data.takeWhile (fun c => c ≠ ','))).map (fun p => String.mk p)) ∧
    get_hydra_installation_path
      [[{ displayName := some "Hydra", publisher := some "Los Broxas",
          installLocation := none, uninstallString := none,
          displayIcon := some "C:\\Apps\\X\\icon.ico,0" }]] = some "C:\\Apps\\X" := by
  constructor
  · intro d
    rw [locate_singleton]
    unfold entryResult
    rw [if_pos ⟨rfl, rfl⟩]
    simp only [uninstallFallback, iconFallback, rustSplitFirst_eq]
    cases winParent (d.data.takeWhile (fun c => c ≠ ',')) <;> simp
  · decide

theorem installPhase_events (env : DownloadEnv) (ev : DLEvent) (h : ev ∈ (installPhase env).1) :
    (∃ m, ev = .installError m) ∨ ev = .installComplete := by
  rcases env with ⟨url, tempDir, getRes, cl, items, createRes, spawnRes, waitRes, removeOk⟩
  unfold installPhase at h
  dsimp only at h
  cases spawnRes with
  | error e =>
    simp at h
    subst h
    exact .inl ⟨_, rfl⟩
  | ok u =>
    cases waitRes with
    | error e => simp at h
    | ok code =>
      dsimp only at h
      by_cases hz : code = 0
      · rw [if_pos hz] at h
        simp at h
        subst h
        exact .inr rfl
      · rw [if_neg hz] at h
        simp at h
        subst h
        exact .inl ⟨_, rfl⟩

theorem runLoop_none_events (items : List StreamItem) :
    ∀ (d : Nat) (lu : ℚ) (ev : DLEvent), ev ∈ (runLoop none items d lu).evts →
      ((∃ p, ev = .downloadProgress p ∧ p.percentage = -1) ∨ (∃ m, ev = .downloadError m)) := by
  induction items with
  | nil =>
    intro d lu ev h
    simp [runLoop] at h
  | cons it rest ih =>
    intro d lu ev h
    rcases it with ⟨chunk, writeRes, arrival⟩
    cases chunk with
    | error e =>
      simp [runLoop] at h
      subst h
      exact .inr ⟨_, rfl⟩
    | ok len =>
      cases writeRes with
      | error e =>
        simp [runLoop] at h
        subst h
        exact .inr ⟨_, rfl⟩
      | ok u =>
        simp only [runLoop] at h
        by_cases hif : (1 : ℚ) / 10 ≤ max 0 (arrival - lu)
        · rw [if_pos hif] at h
          rcases List.mem_cons.mp h with h1 | h2
          · subst h1
            exact .inl ⟨_, rfl, by simp [progressSnapshot]⟩
          · exact ih _ _ _ h2
        · rw [if_neg hif] at h
          exact ih _ _ _ h

/-- C2: percentage is `100 × downloaded/total`, lies in `[0,100]` whenever the
total is known and `downloaded ≤ total`; it equals the sentinel `−1` exactly
when the total is unknown; and a download without a Content-Length yields only
progress events with percentage `−1` and a completion event with `total = none`. -/
theorem claim_C2 :
    (∀ (d t : Nat) (e : ℚ), d ≤ t →
        0 ≤ (progressSnapshot d (some t) e).percentage ∧
          (progressSnapshot d (some t) e).percentage ≤ 100) ∧
    (∀ (d : Nat) (tot : Option Nat) (e : ℚ),
        (progressSnapshot d tot e).percentage = -1 ↔ tot = none) ∧
    (∀ env : DownloadEnv, env.contentLength = none →
        (∀ p, DLEvent.downloadProgress p ∈ (start_download env).events → p.percentage = -1) ∧
        (∀ pa tot, DLEvent.downloadComplete pa tot ∈ (start_download env).events → tot = none)) := by
  refine ⟨?_, ?_, ?_⟩
  · intro d t e hdt
    simp only [progressSnapshot]
    constructor
    · positivity
    · rcases Nat.eq_zero_or_pos t with ht | ht
      · subst ht
        have hd : d = 0 := Nat.le_zero.mp hdt
        subst hd
        norm_num
      · have htq : (0 : ℚ) < t := by exact_mod_cast ht
        have h1 : (d : ℚ) / (t : ℚ) ≤ 1 := (div_le_one htq).mpr (by exact_mod_cast hdt)
        nlinarith
  · intro d tot e
    cases tot with
    | none => simp [progressSnapshot]
    | some t =>
      simp only [progressSnapshot]
      constructor
      · intro h
        exfalso
        have h0 : (0 : ℚ) ≤ (d : ℚ) / (t : ℚ) * 100 := by positivity
        rw [h] at h0
        norm_num at h0
      · intro h
        cases h
  · intro env hcl
    rcases env with ⟨url, tempDir, getRes, cl, items, createRes, spawnRes, waitRes, removeOk⟩
    have hcl' : cl = none := hcl
    subst hcl'
    cases getRes with
    | error e =>
      constructor
      · intro p hp
        simp [start_download] at hp
      · intro pa tot hp
        simp [start_download] at hp
    | ok u =>
      cases createRes with
      | error e =>
        constructor
        · intro p hp
          simp [start_download] at hp
        · intro pa tot hp
          simp [start_download] at hp
      | ok u2 =>
        have hev : (start_download
            { url := url, tempDir := tempDir, getRes := .ok u, contentLength := none,
              items := items, createRes := .ok u2, spawnRes := spawnRes,
              waitRes := waitRes, removeOk := removeOk }).events
            = (afterLoop
                { url := url, tempDir := tempDir, getRes := .ok u, contentLength := none,
                  items := items, createRes := .ok u2, spawnRes := spawnRes,
                  waitRes := waitRes, removeOk := removeOk }
                (runLoop none items 0 0)).events := rfl
        rw [hev]
        unfold afterLoop
        cases hres : (runLoop none items 0 0).res with
        | error e =>
          constructor
          · intro p hp
            simp only at hp
            rcases runLoop_none_events items 0 0 _ hp with ⟨p', hpe, hpv⟩ | ⟨m, hm⟩
            · cases hpe
              exact hpv
            · cases hm
          · intro pa tot hp
            simp only at hp
            rcases runLoop_none_events items 0 0 _ hp with ⟨p', hpe, hpv⟩ | ⟨m, hm⟩
            · cases hpe
            · cases hm
        | ok u3 =>
          constructor
          · intro p hp
            simp only [List.mem_append, List.mem_singleton] at hp
            rcases hp with (hp | hp) | hp
            · rcases runLoop_none_events items 0 0 _ hp with ⟨p', hpe, hpv⟩ | ⟨m, hm⟩
              · cases hpe
                exact hpv
              · cases hm
            · cases hp
            · rcases installPhase_events _ _ hp with ⟨m, hm⟩ | hm <;> cases hm
          · intro pa tot hp
            simp only [List.mem_append, List.mem_singleton] at hp
            rcases hp with (hp | hp) | hp
            · rcases runLoop_none_events items 0 0 _ hp with ⟨p', hpe, hpv⟩ | ⟨m, hm⟩
              · cases hpe
              · cases hm
            · cases hp
              rfl
            · rcases installPhase_events _ _ hp with ⟨m, hm⟩ | hm <;> cases hm

/-- C2 witness: a concrete snapshot at 3 of 4 bytes has its percentage in
`[0,100]`. -/
theorem claim_C2_witness :
    0 ≤ (progressSnapshot 3 (some 4) 1).percentage ∧
      (progressSnapshot 3 (some 4) 1).percentage ≤ 100 :=
  claim_C2.1 3 4 1 (by decide)

/-- C3: the ETA field is absent whenever the computed rate is 0, the total is
unknown, or `downloaded ≥ total`; otherwise it is exactly
`(total − downloaded) / rate`, with `rate = downloaded / elapsed` and rate 0
at elapsed 0. -/
theorem claim_C3 :
    (∀ (d : Nat) (tot : Option Nat) (e : ℚ),
        ((progressSnapshot d tot e).speed = 0 ∨ tot = none ∨ (∃ t, tot = some t ∧ t ≤ d)) →
          (progressSnapshot d tot e).eta = none) ∧
    (∀ (d t : Nat) (e : ℚ), (progressSnapshot d (some t) e).speed ≠ 0 → d < t →
        (progressSnapshot d (some t) e).eta
          = some (((t : ℚ) - (d : ℚ)) / (progressSnapshot d (some t) e).speed)) ∧
    (∀ (d : Nat) (tot : Option Nat) (e : ℚ), 0 < e →
        (progressSnapshot d tot e).speed = (d : ℚ) / e) ∧
    (∀ (d : Nat) (tot : Option Nat), (progressSnapshot d tot 0).speed = 0) := by
  refine ⟨?_, ?_, ?_, ?_⟩
  · intro d tot e h
    cases tot with
    | none => simp [progressSnapshot]
    | some t =>
      rcases h with hs | hn | ⟨t', ht', hle⟩
      · simp only [progressSnapshot] at hs ⊢
        rw [hs, if_neg]
        intro hcon
        exact absurd hcon.1 (lt_irrefl 0)
      · cases hn
      · cases ht'
        simp only [progressSnapshot]
        rw [if_neg]
        intro hcon
        exact absurd hcon.2 (not_lt.mpr hle)
  · intro d t e hs hdt
    simp only [progressSnapshot] at hs ⊢
    have hpos : 0 < (if 0 < e then (d : ℚ) / e else 0) := by
      rcases lt_trichotomy (0 : ℚ) (if 0 < e then (d : ℚ) / e else 0) with h1 | h1 | h1
      · exact h1
      · exact absurd h1.symm hs
      · exfalso
        by_cases he : 0 < e
        · rw [if_pos he] at h1
          have : (0 : ℚ) ≤ (d : ℚ) / e := by positivity
          exact absurd h1 (not_lt.mpr this)
        · rw [if_neg he] at h1
          exact absurd h1 (lt_irrefl 0)
    rw [if_pos ⟨hpos, hdt⟩]
    congr 1
    rw [Nat.cast_sub (le_of_lt hdt)]
  · intro d tot e he
    simp [progressSnapshot, if_pos he]
  · intro d tot
    simp [progressSnapshot]

/-- C3 witness: at 5 of 10 bytes after 2 seconds the ETA equals
`(10 − 5) / rate`. -/
theorem claim_C3_witness :
    (progressSnapshot 5 (some 10) 2).eta
      = some (((10 : ℚ) - (5 : ℚ)) / (progressSnapshot 5 (some 10) 2).speed) :=
  claim_C3.2.1 5 10 2 (by norm_num [progressSnapshot]) (by decide)

/-- C6: termination treats the "process not running" outcomes of `taskkill`
(exit code 128, or a stderr mentioning "not found" / "not running") as
success; every other termination failure is surfaced as an error. -/
theorem claim_C6 :
    (∀ r : TaskkillOutput,
        (r.code = 128 ∨ strContainsSub ("not found".data) r.stderr.data = true
          ∨ strContainsSub ("not running".data) r.stderr.data = true) →
        kill_hydra_process (.ok r) = .ok ()) ∧
    (∀ r : TaskkillOutput,
        r.code ≠ 0 → r.code ≠ 128 →
        strContainsSub ("not found".data) r.stderr.data = false →
        strContainsSub ("not running".data) r.stderr.data = false →
        kill_hydra_process (.ok r) = .error ("Failed to kill Hydra process: " ++ r.stderr)) ∧
    (∀ e : String,
        kill_hydra_process (.error e) = .error ("Failed to execute taskkill: " ++ e)) := by
  refine ⟨?_, ?_, ?_⟩
  · intro r h
    unfold kill_hydra_process
    dsimp only
    by_cases hc : r.code = 0 ∨ r.code = 128
    · rw [if_pos hc]
    · rw [if_neg hc]
      rcases h with h | h | h
      · exact absurd (Or.inr h) hc
      · rw [if_pos (by rw [h]; simp)]
      · rw [if_pos (by rw [h]; simp)]
  · intro r h0 h128 hnf hnr
    unfold kill_hydra_process
    dsimp only
    rw [if_neg (fun hcc : r.code = 0 ∨ r.code = 128 =>
      hcc.elim (fun h => h0 h) (fun h => h128 h))]
    rw [if_neg (by rw [hnf, hnr]; simp)]
  · intro e
    rfl

/-- C6 witness: a `taskkill` run that exits with code 128 (target process not
found) is reported as success. -/
theorem claim_C6_witness :
    kill_hydra_process (.ok { code := 128, stderr := "" }) = .ok () :=
  claim_C6.1 { code := 128, stderr := "" } (Or.inl rfl)

/-- C10: the destination file path is the OS temp directory joined with the
substring of the URL after its last `/`; a URL ending in `/` yields an empty
filename; and the `downloaded_file.exe` fallback is never used, because
splitting a string on `/` always yields at least one segment. -/
theorem claim_C10 :
    (∀ env : DownloadEnv,
        (start_download env).destPath
          = String.mk (winJoin env.tempDir.data
              ((env.url.data.reverse.takeWhile (fun c => c ≠ '/')).reverse))) ∧
    (∀ url : String,
        (rustSplit '/' (url ++ "/").data).getLastD ("downloaded_file.exe".data) = []) ∧
    (∀ cs : List Char, rustSplit '/' cs ≠ []) := by
  refine ⟨?_, ?_, ?_⟩
  · intro env
    have hd : (start_download env).destPath = destFilePath env := by
      rcases env with ⟨url, tempDir, getRes, cl, items, createRes, spawnRes, waitRes, removeOk⟩
      cases getRes with
      | error e => rfl
      | ok u =>
        cases createRes with
        | error e => rfl
        | ok u2 =>
          show (afterLoop _ _).destPath = _
          unfold afterLoop
          cases (runLoop cl items 0 0).res <;> rfl
    rw [hd]
    unfold destFilePath
    rw [rustSplit_getLastD]
  · intro url
    rw [rustSplit_getLastD, String.data_append]
    rw [show ("/" : String).data = ['/'] from rfl]
    simp [List.takeWhile_cons]
  · exact fun cs => rustSplit_ne_nil '/' cs

/-- C10 witness: a concrete URL's destination is the temp directory joined
with the final URL segment. -/
theorem claim_C10_witness :
    (start_download
        { url := "https://example.com/releases/Hydra-Setup.exe",
          tempDir := "C:\\Temp", getRes := .ok (), contentLength := none, items := [],
          createRes := .ok (), spawnRes := .ok (), waitRes := .ok 0, removeOk := true }).destPath
      = String.mk (winJoin ("C:\\Temp".data)
          (("https://example.com/releases/Hydra-Setup.exe".data.reverse.takeWhile
              (fun c => c ≠ '/')).reverse)) :=
  claim_C10.1 _

theorem start_download_ok_ok (env : DownloadEnv) (hg : env.getRes = .ok ())
    (hc : env.createRes = .ok ()) :
    start_download env = afterLoop env (runLoop env.contentLength env.items 0 0) := by
  rcases env with ⟨url, tempDir, getRes, cl, items, createRes, spawnRes, waitRes, removeOk⟩
  have hg' : getRes = .ok () := hg
  have hc' : createRes = .ok () := hc
  subst hg' hc'
  rfl

theorem runLoop_ok_of_all (total : Option Nat) (items : List StreamItem)
    (h : ∀ x ∈ items, x.chunk.isOk = true ∧ x.writeRes.isOk = true) :
    ∀ (d : Nat) (lu : ℚ), (runLoop total items d lu).res = .ok () := by
  induction items with
  | nil => intro d lu; rfl
  | cons it rest ih =>
    intro d lu
    rcases hhead : it with ⟨chunk, writeRes, arrival⟩
    rcases h it (List.mem_cons_self _ _) with ⟨hck, hwr⟩
    rw [hhead] at hck hwr
    have hrest : ∀ x ∈ rest, x.chunk.isOk = true ∧ x.writeRes.isOk = true :=
      fun x hx => h x (List.mem_cons_of_mem _ hx)
    cases chunk with
    | error e => exact Bool.noConfusion hck
    | ok len =>
      cases writeRes with
      | error e => exact Bool.noConfusion hwr
      | ok u =>
        simp only [runLoop]
        by_cases hif : (1 : ℚ) / 10 ≤ max 0 (arrival - lu)
        · rw [if_pos hif]
          exact ih hrest _ _
        · rw [if_neg hif]
          exact ih hrest _ _

theorem runLoop_all_of_ok (total : Option Nat) (items : List StreamItem) :
    ∀ (d : Nat) (lu : ℚ), (runLoop total items d lu).res = .ok () →
      ∀ x ∈ items, x.chunk.isOk = true ∧ x.writeRes.isOk = true := by
  induction items with
  | nil =>
    intro d lu h x hx
    cases hx
  | cons it rest ih =>
    intro d lu h x hx
    rcases it with ⟨chunk, writeRes, arrival⟩
    cases chunk with
    | error e => exact absurd h (by simp [runLoop])
    | ok len =>
      cases writeRes with
      | error e => exact absurd h (by simp [runLoop])
      | ok u =>
        simp only [runLoop] at h
        rcases List.mem_cons.mp hx with h1 | h2
        · subst h1
          exact ⟨rfl, rfl⟩
        · by_cases hif : (1 : ℚ) / 10 ≤ max 0 (arrival - lu)
          · rw [if_pos hif] at h
            exact ih _ _ h x h2
          · rw [if_neg hif] at h
            exact ih _ _ h x h2

theorem runLoop_error_chain (total : Option Nat) (pre : List StreamItem) (it : StreamItem)
    (post : List StreamItem) (m : String)
    (hpre : ∀ x ∈ pre, x.chunk.isOk = true ∧ x.writeRes.isOk = true)
    (hit : it.chunk = .error m) :
    ∀ (d : Nat) (lu : ℚ),
      (runLoop total (pre ++ it :: post) d lu).res = .error ("Download error: " ++ m) ∧
      (runLoop total (pre ++ it :: post) d lu).bytes = d + goodBytes pre ∧
      (runLoop total (pre ++ it :: post) d lu).evts.countP isErrEv = 1 := by
  revert hpre
  induction pre with
  | nil =>
    intro hpre d lu
    rcases it with ⟨chunk, writeRes, arrival⟩
    have hit' : chunk = .error m := hit
    subst hit'
    refine ⟨rfl, ?_, ?_⟩
    · simp [runLoop, goodBytes]
    · simp [runLoop, isErrEv]
  | cons x pre ih =>
    intro hpre d lu
    rcases hpre x (List.mem_cons_self _ _) with ⟨hck, hwr⟩
    have hpre' : ∀ y ∈ pre, y.chunk.isOk = true ∧ y.writeRes.isOk = true :=
      fun y hy => hpre y (List.mem_cons_of_mem _ hy)
    rcases x with ⟨chunk, writeRes, arrival⟩
    cases chunk with
    | error e => exact Bool.noConfusion hck
    | ok len =>
      cases writeRes with
      | error e => exact Bool.noConfusion hwr
      | ok u =>
        simp only [List.cons_append, runLoop]
        by_cases hif : (1 : ℚ) / 10 ≤ max 0 (arrival - lu)
        · rw [if_pos hif]
          obtain ⟨h1, h2, h3⟩ := ih hpre' (d + len) arrival
          refine ⟨h1, ?_, ?_⟩
          · show (runLoop total (pre ++ it :: post) (d + len) arrival).bytes = _
            rw [h2]
            simp [goodBytes]
            omega
          · show List.countP isErrEv (_ :: (runLoop total (pre ++ it :: post) (d + len) arrival).evts) = 1
            rw [List.countP_cons_of_neg isErrEv _ (by simp [isErrEv])]
            exact h3
        · rw [if_neg hif]
          obtain ⟨h1, h2, h3⟩ := ih hpre' (d + len) lu
          refine ⟨h1, ?_, h3⟩
          show (runLoop total (pre ++ it :: post) (d + len) lu).bytes = _
          rw [h2]
          simp [goodBytes]
          omega

/-- C7: a download interrupted by a transport error mid-transfer emits exactly
one `download-error` event, returns an error result carrying the transport
error, and leaves the partially written destination file on disk (created,
holding the bytes of the chunks written before the failure, never deleted),
without reaching the installer. -/
theorem claim_C7 (env : DownloadEnv) (pre post : List StreamItem) (it : StreamItem) (m : String)
    (hg : env.getRes = .ok ()) (hc : env.createRes = .ok ())
    (hitems : env.items = pre ++ it :: post)
    (hpre : ∀ x ∈ pre, x.chunk.isOk = true ∧ x.writeRes.isOk = true)
    (hit : it.chunk = .error m) :
    (start_download env).events.countP isErrEv = 1 ∧
    (start_download env).result = .error ("Download error: " ++ m) ∧
    (start_download env).fileCreated = true ∧
    (start_download env).fileDeleted = false ∧
    (start_download env).fileBytes = goodBytes pre ∧
    (start_download env).installerRan = false := by
  rw [start_download_ok_ok env hg hc, hitems]
  unfold afterLoop
  obtain ⟨h1, h2, h3⟩ := runLoop_error_chain env.contentLength pre it post m hpre hit 0 0
  rw [h1]
  dsimp only
  refine ⟨h3, rfl, rfl, rfl, ?_, rfl⟩
  rw [h2]
  exact Nat.zero_add _

/-- C7 witness: a concrete interrupted download returns the transport error. -/
theorem claim_C7_witness :
    (start_download sampleEnvC7).result = .error ("Download error: " ++ "connection reset") :=
  (claim_C7 sampleEnvC7 [{ chunk := .ok 5, writeRes := .ok (), arrival := 1 }] []
      { chunk := .error "connection reset", writeRes := .ok (), arrival := 2 }
      "connection reset" rfl rfl rfl (by decide) rfl).2.1

/-- C8: when the installer exits successfully but deleting the downloaded
installer file fails, the run still emits `install-complete` and still
returns success. -/
theorem claim_C8 (env : DownloadEnv)
    (hg : env.getRes = .ok ()) (hc : env.createRes = .ok ())
    (hitems : ∀ x ∈ env.items, x.chunk.isOk = true ∧ x.writeRes.isOk = true)
    (hs : env.spawnRes = .ok ()) (hw : env.waitRes = .ok 0) (hr : env.removeOk = false) :
    (start_download env).result = .ok () ∧
    DLEvent.installComplete ∈ (start_download env).events ∧
    (start_download env).fileDeleted = false := by
  rw [start_download_ok_ok env hg hc]
  unfold afterLoop
  rw [runLoop_ok_of_all env.contentLength env.items hitems 0 0]
  dsimp only
  unfold installPhase
  rw [hs, hw]
  dsimp only
  rw [if_pos rfl]
  refine ⟨rfl, ?_, hr⟩
  simp

/-- C8 witness: a concrete successful install with failed cleanup still
returns success. -/
theorem claim_C8_witness : (start_download sampleEnvC8).result = .ok () :=
  (claim_C8 sampleEnvC8 rfl rfl (by decide) rfl rfl rfl).1

theorem installerRan_imp (env : DownloadEnv)
    (h : (start_download env).installerRan = true) :
    (runLoop env.contentLength env.items 0 0).res = .ok () := by
  rcases env with ⟨url, tempDir, getRes, cl, items, createRes, spawnRes, waitRes, removeOk⟩
  cases getRes with
  | error e => exact Bool.noConfusion h
  | ok u =>
    cases createRes with
    | error e => exact Bool.noConfusion h
    | ok u2 =>
      cases hres : (runLoop cl items 0 0).res with
      | ok u3 =>
        cases u3
        rfl
      | error e =>
        exfalso
        have h2 : (afterLoop
            { url := url, tempDir := tempDir, getRes := Except.ok u, contentLength := cl,
              items := items, createRes := Except.ok u2, spawnRes := spawnRes,
              waitRes := waitRes, removeOk := removeOk }
            (runLoop cl items 0 0)).installerRan = true := h
        unfold afterLoop at h2
        rw [hres] at h2
        exact Bool.noConfusion h2

/-- C9: in `delete_previous_installation` the kill attempt is always the first
side effect, and the data-directory removal is attempted only when the kill
succeeded; in `start_download` the installer phase is reached only when every
stream chunk was received and written successfully, i.e. the download
completed before the installer ran. -/
theorem claim_C9 :
    (∀ denv : DeleteEnv,
        (delete_previous_installation denv).1.head? = some DelAction.killAttempt ∧
        (DelAction.removeAttempt ∈ (delete_previous_installation denv).1 →
          kill_hydra_process denv.killOutput = .ok ())) ∧
    (∀ env : DownloadEnv, (start_download env).installerRan = true →
        ∀ x ∈ env.items, x.chunk.isOk = true ∧ x.writeRes.isOk = true) := by
  constructor
  · intro denv
    rcases denv with ⟨killOutput, homeDir, dirExists, removeRes⟩
    unfold delete_previous_installation
    dsimp only
    cases hk : kill_hydra_process killOutput with
    | error e =>
      refine ⟨rfl, fun hm => ?_⟩
      simp at hm
    | ok u =>
      cases u
      cases homeDir with
      | none => exact ⟨rfl, fun _ => rfl⟩
      | some hd =>
        cases dirExists with
        | false => exact ⟨rfl, fun _ => rfl⟩
        | true =>
          cases removeRes with
          | error e => exact ⟨rfl, fun _ => rfl⟩
          | ok u2 => exact ⟨rfl, fun _ => rfl⟩
  · intro env hran
    exact runLoop_all_of_ok env.contentLength env.items 0 0 (installerRan_imp env hran)

/-- C9 witness: in a concrete deletion run that reaches the removal step, the
kill had succeeded. -/
theorem claim_C9_witness :
    kill_hydra_process sampleDelEnv.killOutput = .ok () :=
  (claim_C9.1 sampleDelEnv).2 (by decide)

theorem dropWhile_head_false {α : Type} (p : α → Bool) {l : List α}
    (h : ∀ c, l.head? = some c → p c = false) : l.dropWhile p = l := by
  cases l with
  | nil => rfl
  | cons a t => rw [List.dropWhile_cons, if_neg (by simp [h a rfl])]

theorem rustTrim_eq_self (l : List Char)
    (h1 : ∀ c, l.head? = some c → c.isWhitespace = false)
    (h2 : ∀ c, l.getLast? = some c → c.isWhitespace = false) :
    rustTrim l = l := by
  unfold rustTrim
  rw [dropWhile_head_false _ h1]
  rw [dropWhile_head_false _ (fun c hc => h2 c (by rwa [List.head?_reverse] at hc))]
  exact List.reverse_reverse l

theorem takeWhile_append_of_all {α : Type} (p : α → Bool) (l₁ l₂ : List α)
    (h : ∀ x ∈ l₁, p x = true) : (l₁ ++ l₂).takeWhile p = l₁ ++ l₂.takeWhile p := by
  have he : l₁.takeWhile p = l₁ := List.takeWhile_eq_self_iff.mpr h
  rw [List.takeWhile_append, if_pos (by rw [he])]

theorem mem_of_getLast?_eq {α : Type} {l : List α} {a : α} (h : l.getLast? = some a) :
    a ∈ l := by
  induction l with
  | nil => cases h
  | cons b t ih =>
    cases t with
    | nil =>
      simp at h
      subst h
      exact List.mem_singleton_self _
    | cons c t' =>
      rw [List.getLast?_cons_cons] at h
      exact List.mem_cons_of_mem _ (ih h)

theorem getLast?_not_slash {l : List Char} (h : lastCharNotSlash l = true) :
    ∀ c, l.getLast? = some c → isSlash c = false := by
  intro c hc
  unfold lastCharNotSlash at h
  rw [← List.head?_reverse] at hc
  cases hrev : l.reverse with
  | nil =>
    rw [hrev] at hc
    cases hc
  | cons a t =>
    rw [hrev] at hc h
    simp only [List.head?, Option.some_inj] at hc
    subst hc
    simpa using h

theorem getLast?_not_ws {l : List Char} (h : lastCharNotWs l = true) :
    ∀ c, l.getLast? = some c → c.isWhitespace = false := by
  intro c hc
  unfold lastCharNotWs at h
  rw [← List.head?_reverse] at hc
  cases hrev : l.reverse with
  | nil =>
    rw [hrev] at hc
    cases hc
  | cons a t =>
    rw [hrev] at hc h
    simp only [List.head?, Option.some_inj] at hc
    subst hc
    simpa using h

theorem winParentRest_append_nonslash (pre R : List Char) (q : Char)
    (hq : isSlash q = false) (hne : R ≠ [])
    (hlast : ∀ c, R.getLast? = some c → isSlash c = false)
    (hall : R.all isSlash = false) :
    winParentRest pre (R ++ [q]) = winParentRest pre R := by
  have hall2 : (R ++ [q]).all isSlash = false := by
    rw [List.all_append, hall]
    rfl
  have h1 : (R ++ [q]).reverse.dropWhile isSlash = q :: R.reverse := by
    have hr : (R ++ [q]).reverse = q :: R.reverse := by simp
    rw [hr, List.dropWhile_cons, if_neg (by simp [hq])]
  have h2 : R.reverse.dropWhile isSlash = R.reverse :=
    dropWhile_head_false _ (fun c hc => hlast c (by rwa [List.head?_reverse] at hc))
  have h3 : (q :: R.reverse).dropWhile (fun c => !isSlash c)
      = R.reverse.dropWhile (fun c => !isSlash c) := by
    rw [List.dropWhile_cons, if_pos (by simp [hq])]
  have h4 : (R ++ [q]).headD '\\' = R.headD '\\' := by
    cases R with
    | nil => exact absurd rfl hne
    | cons r0 R' => rfl
  unfold winParentRest
  rw [h1, h3, h2, h4, hall, hall2]

theorem hasDrive_append_quote (C : List Char) (hC : C ≠ []) :
    hasDrive (C ++ ['"']) = hasDrive C := by
  cases C with
  | nil => exact absurd rfl hC
  | cons a t =>
    cases t with
    | nil => simp [hasDrive]
    | cons b t' => rfl

theorem afterDrive_append_quote (C : List Char) (hC : C ≠ []) :
    afterDrive (C ++ ['"']) = afterDrive C ++ ['"'] := by
  unfold afterDrive
  rw [hasDrive_append_quote C hC]
  cases hd : hasDrive C with
  | false => simp
  | true =>
    cases C with
    | nil => exact absurd rfl hC
    | cons a t =>
      cases t with
      | nil => exact absurd hd (by simp [hasDrive])
      | cons b t' => simp

theorem take2_append_quote (C : List Char) (hd : hasDrive C = true) :
    (C ++ ['"']).take 2 = C.take 2 := by
  cases C with
  | nil => exact absurd hd (by simp [hasDrive])
  | cons a t =>
    cases t with
    | nil => exact absurd hd (by simp [hasDrive])
    | cons b t' => rfl

theorem winParent_append_quote (C : List Char) (hC : C ≠ [])
    (hlast : ∀ c, (afterDrive C).getLast? = some c → isSlash c = false)
    (hall : (afterDrive C).all isSlash = false) :
    winParent (C ++ ['"']) = winParent C := by
  have hRne : afterDrive C ≠ [] := by
    intro h
    rw [h] at hall
    exact Bool.noConfusion hall
  show winParentRest _ _ = winParentRest _ _
  rw [hasDrive_append_quote C hC, afterDrive_append_quote C hC]
  cases hd : hasDrive C with
  | false =>
    simp only [Bool.false_eq_true, if_false]
    exact winParentRest_append_nonslash [] (afterDrive C) '"' rfl hRne hlast hall
  | true =>
    simp only [if_true]
    rw [take2_append_quote C hd]
    exact winParentRest_append_nonslash (C.take 2) (afterDrive C) '"' rfl hRne hlast hall

theorem locate_uninstall_formula (s : String) :
    get_hydra_installation_path [[uninstallOnlyEntry s]]
      = (winParent (uninstallExePath s)).map
          (fun p => String.mk (winJoin p ("Hydra.exe".data))) := by
  rw [locate_singleton]
  unfold uninstallOnlyEntry entryResult
  rw [if_pos ⟨rfl, rfl⟩]
  dsimp only
  unfold uninstallFallback
  dsimp only
  cases h : winParent (uninstallExePath s) with
  | some p => rfl
  | none => rfl

theorem head?_mem {α : Type} {l : List α} {a : α} (h : l.head? = some a) : a ∈ l := by
  cases l with
  | nil => cases h
  | cons b t =>
    simp only [List.head?, Option.some_inj] at h
    subst h
    exact List.mem_cons_self _ _

/-- C1 counterexample: for the uninstall command string
`"C:\Program Files\X\Uninstall.exe" /S` — a quoted executable path containing
a space — the locator returns `C:\Hydra.exe`, not the
`C:\Program Files\X\Hydra.exe` that the claimed quote-aware parse (substring
up to the matching closing quote) prescribes. -/
theorem claim_C1_counterexample :
    get_hydra_installation_path
        [[uninstallOnlyEntry "\"C:\\Program Files\\X\\Uninstall.exe\" /S"]]
      = some "C:\\Hydra.exe" ∧
    specUninstallResult "\"C:\\Program Files\\X\\Uninstall.exe\" /S"
      = some "C:\\Program Files\\X\\Hydra.exe" ∧
    get_hydra_installation_path
        [[uninstallOnlyEntry "\"C:\\Program Files\\X\\Uninstall.exe\" /S"]]
      ≠ specUninstallResult "\"C:\\Program Files\\X\\Uninstall.exe\" /S" :=
  ⟨by decide, by decide, by decide⟩

/-- C1 amended: the locator does not scan for the matching closing quote; it
trims the uninstall command, strips every leading and trailing quote
character, takes the first whitespace-delimited token (falling back to the
original string when none exists) and returns that token's parent directory
with `Hydra.exe` appended, falling through to the display-icon fallback when
the parent does not exist.  This coincides with the claimed quote-aware parse
exactly when the quoted path has no internal whitespace: for
`"<path>"` or `"<path>" <args>` with `<path>` free of whitespace and quotes,
not ending in a separator and not consisting only of a drive prefix and
separators, and `<args>` starting with whitespace, free of quotes and not
ending in whitespace, the locator returns the quoted path's parent directory
with `Hydra.exe` appended, as the spec describes. -/
theorem claim_C1_amended :
    (∀ s : String,
        get_hydra_installation_path [[uninstallOnlyEntry s]]
          = (winParent (uninstallExePath s)).map
              (fun p => String.mk (winJoin p ("Hydra.exe".data)))) ∧
    (∀ C rest : List Char, C ≠ [] →
        (∀ c ∈ C, c.isWhitespace = false ∧ c ≠ '"') →
        lastCharNotSlash (afterDrive C) = true →
        (afterDrive C).all isSlash = false →
        (rest = [] ∨ ∃ w r', rest = w :: r' ∧ w.isWhitespace = true ∧ ('"' ∉ w :: r') ∧
            lastCharNotWs (w :: r') = true) →
        get_hydra_installation_path
            [[uninstallOnlyEntry (String.mk ('"' :: C ++ '"' :: rest))]]
          = specUninstallResult (String.mk ('"' :: C ++ '"' :: rest)) ∧
        specUninstallResult (String.mk ('"' :: C ++ '"' :: rest))
          = (winParent C).map (fun p => String.mk (winJoin p ("Hydra.exe".data)))) := by
  constructor
  · exact locate_uninstall_formula
  · intro C rest hCne hCgood hlastB hall hrest
    have hlast : ∀ c, (afterDrive C).getLast? = some c → isSlash c = false :=
      getLast?_not_slash hlastB
    have hspec : specUninstallExe (String.mk ('"' :: C ++ '"' :: rest)) = C := by
      show specUninstallExeL (('"' :: C) ++ ('"' :: rest)) = C
      rw [List.cons_append]
      show (if ('"' : Char) = '"' then (C ++ '"' :: rest).takeWhile (fun x => x ≠ '"')
           else ((C ++ '"' :: rest).dropWhile Char.isWhitespace).takeWhile
              (fun x => !x.isWhitespace)) = C
      rw [if_pos rfl]
      rw [takeWhile_append_of_all _ C ('"' :: rest)
          (fun x hx => by simpa using (hCgood x hx).2)]
      rw [List.takeWhile_cons, if_neg (by simp)]
      simp
    have hspecRes : specUninstallResult (String.mk ('"' :: C ++ '"' :: rest))
        = (winParent C).map (fun p => String.mk (winJoin p ("Hydra.exe".data))) := by
      unfold specUninstallResult
      rw [hspec]
    have hfrontq : List.dropWhile (fun c => c = '"') ('"' :: C ++ '"' :: rest)
        = C ++ '"' :: rest := by
      rw [List.cons_append, List.dropWhile_cons, if_pos (by simp)]
      cases C with
      | nil => exact absurd rfl hCne
      | cons c0 C₂ =>
        rw [List.cons_append, List.dropWhile_cons,
          if_neg (by simp [(hCgood c0 (List.mem_cons_self _ _)).2])]
    have hdropwsC : ∀ X : List Char, C ++ X = (C ++ X).dropWhile Char.isWhitespace := by
      intro X
      refine (dropWhile_head_false _ (fun c hc => ?_)).symm
      cases C with
      | nil => exact absurd rfl hCne
      | cons c0 C₂ =>
        rw [List.cons_append] at hc
        simp only [List.head?, Option.some_inj] at hc
        subst hc
        exact (hCgood c0 (List.mem_cons_self _ _)).1
    have hCemp : ∀ X : List Char, (C ++ X).isEmpty = false := by
      intro X
      cases C with
      | nil => exact absurd rfl hCne
      | cons c0 C₂ => rfl
    rcases hrest with hre | ⟨w, r', hre, hw, hqr, hwlB⟩
    · subst hre
      have htrim : rustTrim ('"' :: C ++ '"' :: []) = '"' :: C ++ '"' :: [] := by
        apply rustTrim_eq_self
        · intro c hc
          rw [List.cons_append] at hc
          simp only [List.head?, Option.some_inj] at hc
          subst hc
          rfl
        · intro c hc
          rw [show ('"' :: C ++ '"' :: [] : List Char) = ('"' :: C) ++ ['"'] from by simp,
            List.getLast?_concat] at hc
          simp only [Option.some_inj] at hc
          subst hc
          rfl
      have htq : trimQuotes ('"' :: C ++ '"' :: []) = C := by
        unfold trimQuotes
        rw [hfrontq]
        rw [show (C ++ '"' :: [] : List Char).reverse = '"' :: C.reverse from by simp]
        rw [List.dropWhile_cons, if_pos (by simp)]
        rw [dropWhile_head_false _ (fun c hc => by
          rw [List.head?_reverse] at hc
          simp [(hCgood c (mem_of_getLast?_eq hc)).2])]
        exact List.reverse_reverse C
      have hfw : firstWsToken C = some C := by
        unfold firstWsToken
        rw [show C.dropWhile Char.isWhitespace = C from by
          simpa using (hdropwsC []).symm]
        rw [if_neg (by simp [List.isEmpty_iff, hCne])]
        rw [List.takeWhile_eq_self_iff.mpr (fun c hc => by simp [(hCgood c hc).1])]
      have hex : uninstallExePath (String.mk ('"' :: C ++ '"' :: [])) = C := by
        unfold uninstallExePath
        dsimp only
        rw [htrim, htq, hfw]
      refine ⟨?_, hspecRes⟩
      rw [locate_uninstall_formula, hspecRes, hex]
    · subst hre
      have hwl : ∀ c, (w :: r').getLast? = some c → c.isWhitespace = false :=
        getLast?_not_ws hwlB
      have hsplit : ('"' :: C ++ '"' :: (w :: r') : List Char)
          = ('"' :: C ++ ['"']) ++ (w :: r') := by simp
      have hglast : ∀ c, ('"' :: C ++ '"' :: (w :: r') : List Char).getLast? = some c →
          (w :: r').getLast? = some c := by
        intro c hc
        rw [hsplit, List.getLast?_append] at hc
        rcases hgl : (w :: r').getLast? with _ | a
        · rw [List.getLast?_eq_none_iff] at hgl
          cases hgl
        · rw [hgl, Option.or_some] at hc
          exact hc
      have htrim : rustTrim ('"' :: C ++ '"' :: (w :: r'))
          = '"' :: C ++ '"' :: (w :: r') := by
        apply rustTrim_eq_self
        · intro c hc
          rw [List.cons_append] at hc
          simp only [List.head?, Option.some_inj] at hc
          subst hc
          rfl
        · intro c hc
          exact hwl c (hglast c hc)
      have htq : trimQuotes ('"' :: C ++ '"' :: (w :: r')) = C ++ '"' :: (w :: r') := by
        unfold trimQuotes
        rw [hfrontq]
        rw [dropWhile_head_false _ (fun c hc => by
          rw [List.head?_reverse] at hc
          have hcm : c ∈ w :: r' := by
            apply mem_of_getLast?_eq
            rw [show (C ++ '"' :: (w :: r') : List Char) = (C ++ ['"']) ++ (w :: r') from by simp,
              List.getLast?_append] at hc
            rcases hgl : (w :: r').getLast? with _ | a
            · rw [List.getLast?_eq_none_iff] at hgl
              cases hgl
            · rw [hgl, Option.or_some] at hc
              exact hc
          simp
          intro hcq
          exact hqr (hcq ▸ hcm))]
        exact List.reverse_reverse _
      have hfw : firstWsToken (C ++ '"' :: (w :: r')) = some (C ++ ['"']) := by
        unfold firstWsToken
        rw [← hdropwsC ('"' :: (w :: r'))]
        rw [if_neg (by simp [hCemp ('"' :: (w :: r'))])]
        rw [takeWhile_append_of_all _ C ('"' :: (w :: r'))
          (fun x hx => by simp [(hCgood x hx).1])]
        rw [List.takeWhile_cons, if_pos (by simp)]
        rw [List.takeWhile_cons, if_neg (by simp [hw])]
      have hex : uninstallExePath (String.mk ('"' :: C ++ '"' :: (w :: r')))
          = C ++ ['"'] := by
        unfold uninstallExePath
        dsimp only
        rw [htrim, htq, hfw]
      refine ⟨?_, hspecRes⟩
      rw [locate_uninstall_formula, hspecRes, hex,
        winParent_append_quote C hCne hlast hall]

/-- C1 amended witness: for `"D:\Tools\Hydra\unins000.exe" /SILENT` the
locator and the spec's quote-aware parse agree. -/
theorem claim_C1_amended_witness :
    get_hydra_installation_path
        [[uninstallOnlyEntry
            (String.mk ('"' :: ("D:\\Tools\\Hydra\\unins000.exe".data)
              ++ '"' :: (" /SILENT".data)))]]
      = specUninstallResult
          (String.mk ('"' :: ("D:\\Tools\\Hydra\\unins000.exe".data)
            ++ '"' :: (" /SILENT".data))) :=
  (claim_C1_amended.2 ("D:\\Tools\\Hydra\\unins000.exe".data) (" /SILENT".data)
      (by decide) (by decide) (by decide) (by decide)
      (Or.inr ⟨' ', "/SILENT".data, rfl, rfl, by decide, by decide⟩)).1

end HydraInstaller
